import Mathlib

/-!
Verification of the link-sync reconciliation engine.

Shallow embedding of the repository's reconciliation core:
- `src/types.ts`: the data model (`YamlLink`, `ShortioLink`, `LinkDiff`,
  `SyncResult`, `MANAGED_TAG`, `getLinkKey`);
- `sync.ts`: `arraysEqual`, `needsUpdate`, `computeDiff` (its pure
  classification part, operating on the flattened observed list),
  `executeSync` (with the remote create/update/delete primitives abstracted
  as oracles) and the request-body construction with its management-marker
  injection;
- the domain-id resolution with its module-level cache (`resolveDomainId`).

JavaScript `Map` objects are modelled as association lists with
insertion-order iteration, first-match lookup and replace-or-append `set`.
Optional (possibly `undefined`) values are modelled with `Option`.
-/

namespace LinkSync

/-- `expiresAt` is `number | string` in the source; strict `!==` never
identifies a number with a string. -/
inductive NumOrStr where
  | num (n : Int)
  | str (s : String)
deriving DecidableEq, Repr

/-- The optional link parameters shared by `YamlLinkValue`,
`ShortioLinkParams` and the request bodies (src/types.ts). -/
structure LinkParams where
  title : Option String := none
  tags : Option (List String) := none
  cloaking : Option Bool := none
  redirectType : Option Nat := none
  expiresAt : Option NumOrStr := none
  expiredURL : Option String := none
  password : Option String := none
  passwordContact : Option Bool := none
  utmSource : Option String := none
  utmMedium : Option String := none
  utmCampaign : Option String := none
  utmTerm : Option String := none
  utmContent : Option String := none
  androidURL : Option String := none
  iphoneURL : Option String := none
  clicksLimit : Option Int := none
  splitURL : Option String := none
  splitPercent : Option Int := none
  integrationGA : Option String := none
  integrationFB : Option String := none
  integrationAdroll : Option String := none
  integrationGTM : Option String := none
  folderId : Option String := none
  archived : Option Bool := none
  skipQS : Option Bool := none
deriving DecidableEq, Repr

/-- A desired link from the parsed configuration (`YamlLink` in
src/types.ts). -/
structure YamlLink where
  slug : String
  domain : String
  url : String
  params : LinkParams := {}
deriving DecidableEq, Repr

/-- An observed remote link (`ShortioLink` in src/types.ts). -/
structure ShortioLink where
  id : String := ""
  originalURL : String
  path : String
  domain : String
  domainId : Nat := 0
  params : LinkParams := {}
deriving DecidableEq, Repr

/-- `LinkDiff` from src/types.ts; `toUpdate` pairs are the source's
`{ yaml, existing }` records. -/
structure LinkDiff where
  toCreate : List YamlLink
  toUpdate : List (YamlLink × ShortioLink)
  toDelete : List ShortioLink
deriving DecidableEq, Repr

/-- `SyncResult` from src/types.ts. -/
structure SyncResult where
  created : Nat
  updated : Nat
  deleted : Nat
  errors : List String
deriving DecidableEq, Repr

/-- `MANAGED_TAG` from src/types.ts. -/
def MANAGED_TAG : String := "github-action-managed"

/-- `getLinkKey` from src/types.ts: the composite identity key
`domain + "/" + slug`. -/
def getLinkKey (domain slug : String) : String :=
  domain ++ "/" ++ slug

/-- JavaScript `Map.get`: first (unique) matching key. -/
def mapGet {α : Type} : List (String × α) → String → Option α
  | [], _ => none
  | p :: t, k => if p.1 = k then some p.2 else mapGet t k

/-- JavaScript `Map.has`. -/
def mapHas {α : Type} (m : List (String × α)) (k : String) : Bool :=
  (mapGet m k).isSome

/-- JavaScript `Map.set`: replace the binding in place if the key is
present, append otherwise. -/
def jsMapSet {α : Type} : List (String × α) → String → α → List (String × α)
  | [], k, v => [(k, v)]
  | p :: t, k, v => if p.1 = k then (k, v) :: t else p :: jsMapSet t k v

/-- Build a `Map` by `set`ting each pair in order (the `for … of` loops
that build `existingByKey` and `yamlByKey` in `computeDiff`). -/
def buildMap {α : Type} (l : List (String × α)) : List (String × α) :=
  l.foldl (fun m p => jsMapSet m p.1 p.2) []

/-- The binding the last `set` for a key leaves in a `Map` (later entries
overwrite earlier ones). -/
def lastBind {α : Type} : List (String × α) → String → Option α
  | [], _ => none
  | p :: t, k =>
    match lastBind t k with
    | some v => some v
    | none => if p.1 = k then some p.2 else none

/-- Key of an observed link as used by `computeDiff`:
`getLinkKey(link.domain, link.path)`. -/
def linkKeyOfExisting (l : ShortioLink) : String :=
  getLinkKey l.domain l.path

/-- Key of a desired link as used by `computeDiff`:
`getLinkKey(link.domain, link.slug)`. -/
def linkKeyOfYaml (l : YamlLink) : String :=
  getLinkKey l.domain l.slug

/-- `existingByKey` map of `computeDiff`. -/
def existingByKey (es : List ShortioLink) : List (String × ShortioLink) :=
  buildMap (es.map fun l => (linkKeyOfExisting l, l))

/-- `yamlByKey` map of `computeDiff`. -/
def yamlByKey (ys : List YamlLink) : List (String × YamlLink) :=
  buildMap (ys.map fun l => (linkKeyOfYaml l, l))

/-- `arraysEqual` from sync.ts: length check, then pointwise comparison of
both lists sorted (JavaScript's lexicographic default sort). -/
def arraysEqual : Option (List String) → Option (List String) → Bool
  | none, none => true
  | none, some _ => false
  | some _, none => false
  | some a, some b =>
    if a.length = b.length then
      ((List.insertionSort (fun x y : String => x ≤ y) a).zip
        (List.insertionSort (fun x y : String => x ≤ y) b)).all
        fun q => q.1 == q.2
    else false

/-- `needsUpdate` from sync.ts: the early-return chain of per-field strict
comparisons, with `(yaml.title || '') !== (existing.title || '')` for the
title and `arraysEqual` for the tags. -/
def needsUpdate (yaml : YamlLink) (existing : ShortioLink) : Bool :=
  decide (yaml.url ≠ existing.originalURL) ||
  decide (yaml.params.title.getD "" ≠ existing.params.title.getD "") ||
  !(arraysEqual yaml.params.tags existing.params.tags) ||
  decide (yaml.params.cloaking ≠ existing.params.cloaking) ||
  decide (yaml.params.redirectType ≠ existing.params.redirectType) ||
  decide (yaml.params.expiresAt ≠ existing.params.expiresAt) ||
  decide (yaml.params.expiredURL ≠ existing.params.expiredURL) ||
  decide (yaml.params.password ≠ existing.params.password) ||
  decide (yaml.params.passwordContact ≠ existing.params.passwordContact) ||
  decide (yaml.params.utmSource ≠ existing.params.utmSource) ||
  decide (yaml.params.utmMedium ≠ existing.params.utmMedium) ||
  decide (yaml.params.utmCampaign ≠ existing.params.utmCampaign) ||
  decide (yaml.params.utmTerm ≠ existing.params.utmTerm) ||
  decide (yaml.params.utmContent ≠ existing.params.utmContent) ||
  decide (yaml.params.androidURL ≠ existing.params.androidURL) ||
  decide (yaml.params.iphoneURL ≠ existing.params.iphoneURL) ||
  decide (yaml.params.clicksLimit ≠ existing.params.clicksLimit) ||
  decide (yaml.params.splitURL ≠ existing.params.splitURL) ||
  decide (yaml.params.splitPercent ≠ existing.params.splitPercent) ||
  decide (yaml.params.integrationGA ≠ existing.params.integrationGA) ||
  decide (yaml.params.integrationFB ≠ existing.params.integrationFB) ||
  decide (yaml.params.integrationAdroll ≠ existing.params.integrationAdroll) ||
  decide (yaml.params.integrationGTM ≠ existing.params.integrationGTM) ||
  decide (yaml.params.folderId ≠ existing.params.folderId) ||
  decide (yaml.params.archived ≠ existing.params.archived) ||
  decide (yaml.params.skipQS ≠ existing.params.skipQS)

/-- `existing.tags?.includes(MANAGED_TAG)` from `computeDiff`'s delete
loop (missing tags are falsy). -/
def includesManagedTag : Option (List String) → Bool
  | none => false
  | some ts => decide (MANAGED_TAG ∈ ts)

/-- The pure classification part of `computeDiff` from sync.ts, given the
flattened desired and observed collections: index both by identity key,
then classify each key as create, update or delete; observed resources
without the management marker are never deletion candidates. -/
def computeDiffPure (ys : List YamlLink) (es : List ShortioLink) : LinkDiff :=
  let eK := existingByKey es
  let yK := yamlByKey ys
  { toCreate := ((yK.filter fun p => !(mapHas eK p.1)).map fun p => p.2),
    toUpdate := yK.filterMap fun p =>
      match mapGet eK p.1 with
      | none => none
      | some ex => if needsUpdate p.2 ex then some (p.2, ex) else none,
    toDelete :=
      ((eK.filter fun p => !(mapHas yK p.1) && includesManagedTag p.2.params.tags).map
        fun p => p.2) }

/-- The tag list of a creation request body
(`params.tags ? [...params.tags, MANAGED_TAG] : [MANAGED_TAG]`,
sync.ts line 456): the management marker is appended to the desired tags. -/
def createRequestTags : Option (List String) → List String
  | some ts => ts ++ [MANAGED_TAG]
  | none => [MANAGED_TAG]

/-- The tag list of an update request body
(`baseTags.includes(MANAGED_TAG) ? baseTags : [...baseTags, MANAGED_TAG]`,
sync.ts lines 502-503): the marker is added only when absent. -/
def updateRequestTags (t : Option (List String)) : List String :=
  let base := t.getD []
  if MANAGED_TAG ∈ base then base else base ++ [MANAGED_TAG]

/-- The `...(folderId ? { FolderId: folderId } : {})` spread: the folder id
is put in the body only when truthy (present and non-empty). -/
def folderIdField : Option String → Option String
  | none => none
  | some s => if s = "" then none else some s

/-- Body of a `createLink` request (sync.ts lines 458-466). -/
structure CreateBody where
  originalURL : String
  domain : String
  path : String
  params : LinkParams
deriving DecidableEq, Repr

/-- Body of an `updateLink` request (sync.ts lines 505-512); the link is
addressed by the observed resource's remote id, the path is not rewritten. -/
structure UpdateBody where
  originalURL : String
  params : LinkParams
deriving DecidableEq, Repr

/-- The creation request `executeSync` builds from a desired link:
`getLinkParams(link)` spread into the body, with the marker-injected tag
list and the conditional `FolderId`. -/
def buildCreateBody (link : YamlLink) : CreateBody :=
  { originalURL := link.url
    domain := link.domain
    path := link.slug
    params := { link.params with
      tags := some (createRequestTags link.params.tags)
      folderId := folderIdField link.params.folderId } }

/-- The update request `executeSync` builds from a desired link. -/
def buildUpdateBody (link : YamlLink) : UpdateBody :=
  { originalURL := link.url
    params := { link.params with
      tags := some (updateRequestTags link.params.tags)
      folderId := folderIdField link.params.folderId } }

/-- Outcome oracle: `Except.error e` models the remote primitive throwing
an error whose message is `e`. -/
def exceptOk {ε α : Type} : Except ε α → Bool
  | Except.ok _ => true
  | Except.error _ => false

/-- One iteration of `executeSync`'s create loop. The accumulator carries
the `SyncResult` and the number of remote-primitive invocations so far. -/
def createStep (cOp : CreateBody → Except String Unit) (dryRun : Bool)
    (acc : SyncResult × Nat) (link : YamlLink) : SyncResult × Nat :=
  let key := getLinkKey link.domain link.slug
  if dryRun then
    ({ acc.1 with created := acc.1.created + 1 }, acc.2)
  else
    match cOp (buildCreateBody link) with
    | Except.ok _ => ({ acc.1 with created := acc.1.created + 1 }, acc.2 + 1)
    | Except.error e =>
      ({ acc.1 with
          errors := acc.1.errors ++ ["Failed to create " ++ key ++ ": " ++ e] },
        acc.2 + 1)

/-- One iteration of `executeSync`'s update loop. -/
def updateStep (uOp : String → UpdateBody → Except String Unit) (dryRun : Bool)
    (acc : SyncResult × Nat) (pair : YamlLink × ShortioLink) : SyncResult × Nat :=
  let key := getLinkKey pair.1.domain pair.1.slug
  if dryRun then
    ({ acc.1 with updated := acc.1.updated + 1 }, acc.2)
  else
    match uOp pair.2.id (buildUpdateBody pair.1) with
    | Except.ok _ => ({ acc.1 with updated := acc.1.updated + 1 }, acc.2 + 1)
    | Except.error e =>
      ({ acc.1 with
          errors := acc.1.errors ++ ["Failed to update " ++ key ++ ": " ++ e] },
        acc.2 + 1)

/-- One iteration of `executeSync`'s delete loop. -/
def deleteStep (dOp : String → Except String Unit) (dryRun : Bool)
    (acc : SyncResult × Nat) (link : ShortioLink) : SyncResult × Nat :=
  let key := getLinkKey link.domain link.path
  if dryRun then
    ({ acc.1 with deleted := acc.1.deleted + 1 }, acc.2)
  else
    match dOp link.id with
    | Except.ok _ => ({ acc.1 with deleted := acc.1.deleted + 1 }, acc.2 + 1)
    | Except.error e =>
      ({ acc.1 with
          errors := acc.1.errors ++ ["Failed to delete " ++ key ++ ": " ++ e] },
        acc.2 + 1)

/-- `executeSync` from sync.ts, with the remote create/update/delete
primitives abstracted as oracles. Each phase runs only when its list is
non-empty (the `length > 0` guards), every item is handled inside its own
try/catch (a failure appends an error string and the loop continues) and in
dry-run mode no primitive is invoked. The second component counts the
primitive invocations. -/
def executeSync (diff : LinkDiff) (dryRun : Bool)
    (cOp : CreateBody → Except String Unit)
    (uOp : String → UpdateBody → Except String Unit)
    (dOp : String → Except String Unit) : SyncResult × Nat :=
  let acc0 : SyncResult × Nat := ({ created := 0, updated := 0, deleted := 0, errors := [] }, 0)
  let acc1 := if diff.toCreate.length > 0
    then diff.toCreate.foldl (createStep cOp dryRun) acc0 else acc0
  let acc2 := if diff.toUpdate.length > 0
    then diff.toUpdate.foldl (updateStep uOp dryRun) acc1 else acc1
  if diff.toDelete.length > 0
    then diff.toDelete.foldl (deleteStep dOp dryRun) acc2 else acc2

/-- The error strings produced by a phase: one per failed item, in order. -/
def opFailures {α : Type} (f : α → Except String Unit) (msg : α → String) :
    List α → List String
  | [] => []
  | a :: t =>
    match f a with
    | Except.ok _ => opFailures f msg t
    | Except.error e => (msg a ++ e) :: opFailures f msg t

/-- Error prefix of a failed creation. -/
def createMsg (l : YamlLink) : String :=
  "Failed to create " ++ getLinkKey l.domain l.slug ++ ": "

/-- Error prefix of a failed update. -/
def updateMsg (p : YamlLink × ShortioLink) : String :=
  "Failed to update " ++ getLinkKey p.1.domain p.1.slug ++ ": "

/-- Error prefix of a failed deletion. -/
def deleteMsg (l : ShortioLink) : String :=
  "Failed to delete " ++ getLinkKey l.domain l.path ++ ": "

-- Domain-id resolution (sync.ts lines 211-235).

/-- Errors of `resolveDomainId`: the listing call failing upstream, or the
requested hostname not resolving. -/
inductive DomainError where
  | upstream
  | notFound
deriving DecidableEq, Repr

/-- The cache-population loop: `domainCache.set(domain.hostname, domain.id)`
for every listed domain. -/
def populateCache (cache : List (String × Nat)) (ds : List (String × Nat)) :
    List (String × Nat) :=
  ds.foldl (fun c d => jsMapSet c d.1 d.2) cache

/-- `resolveDomainId` from sync.ts: return the cached id if the hostname is
cached; otherwise make one `listDomains` call (second component of the
result counts listing calls), populate the cache with every returned
domain, and re-check — `if (!id) throw`, so a missing entry and a 0 id
(falsy) both raise the not-found error. The cache after the call is the
third component. -/
def resolveDomainId (cache : List (String × Nat))
    (listing : Except Unit (List (String × Nat))) (hostname : String) :
    Except DomainError Nat × List (String × Nat) × Nat :=
  match mapGet cache hostname with
  | some id => (Except.ok id, cache, 0)
  | none =>
    match listing with
    | Except.error _ => (Except.error DomainError.upstream, cache, 1)
    | Except.ok ds =>
      let cache' := populateCache cache ds
      match mapGet cache' hostname with
      | none => (Except.error DomainError.notFound, cache', 1)
      | some id =>
        if id = 0 then (Except.error DomainError.notFound, cache', 1)
        else (Except.ok id, cache', 1)

-- Post-sync observed state, for the idempotence claim.

/-- The observed link an update leaves behind, per the update request body:
every field is rewritten from the desired link, the tag list is the
marker-injected `updateRequestTags`; identity fields (id, domain, path,
domainId) are untouched. -/
def rewriteLink (y : YamlLink) (e : ShortioLink) : ShortioLink :=
  { id := e.id
    originalURL := y.url
    path := e.path
    domain := e.domain
    domainId := e.domainId
    params := { y.params with tags := some (updateRequestTags y.params.tags) } }

/-- The observed link a creation leaves behind, per the creation request
body: desired fields with the marker-injected `createRequestTags` tag list
(the remote id and numeric domain id are irrelevant to the diff). -/
def createdLink (y : YamlLink) : ShortioLink :=
  { id := ""
    originalURL := y.url
    path := y.slug
    domain := y.domain
    domainId := 0
    params := { y.params with tags := some (createRequestTags y.params.tags) } }

/-- Modelled from the spec: the spec's "would-be post-sync observed state
(mentally applying the prior diff)" — no such function exists in the
source. Created resources are added and updated resources rewritten as the
executor's request bodies prescribe (`createdLink`, `rewriteLink`), deleted
resources are removed, unmanaged strays and unchanged resources survive. -/
def applyDiff (ys : List YamlLink) (es : List ShortioLink) : List ShortioLink :=
  let eK := existingByKey es
  let yK := yamlByKey ys
  (eK.filterMap fun p =>
    match mapGet yK p.1 with
    | none => if includesManagedTag p.2.params.tags then none else some p.2
    | some y => if needsUpdate y p.2 then some (rewriteLink y p.2) else some p.2)
  ++ ((yK.filter fun p => !(mapHas eK p.1)).map fun p => createdLink p.2)

/-- All field comparisons of `needsUpdate` other than the tag list: strict
equality everywhere, with the title compared after `|| ''` coalescing. -/
def fieldsAgree (yaml : YamlLink) (existing : ShortioLink) : Prop :=
  yaml.url = existing.originalURL ∧
  yaml.params.title.getD "" = existing.params.title.getD "" ∧
  yaml.params.cloaking = existing.params.cloaking ∧
  yaml.params.redirectType = existing.params.redirectType ∧
  yaml.params.expiresAt = existing.params.expiresAt ∧
  yaml.params.expiredURL = existing.params.expiredURL ∧
  yaml.params.password = existing.params.password ∧
  yaml.params.passwordContact = existing.params.passwordContact ∧
  yaml.params.utmSource = existing.params.utmSource ∧
  yaml.params.utmMedium = existing.params.utmMedium ∧
  yaml.params.utmCampaign = existing.params.utmCampaign ∧
  yaml.params.utmTerm = existing.params.utmTerm ∧
  yaml.params.utmContent = existing.params.utmContent ∧
  yaml.params.androidURL = existing.params.androidURL ∧
  yaml.params.iphoneURL = existing.params.iphoneURL ∧
  yaml.params.clicksLimit = existing.params.clicksLimit ∧
  yaml.params.splitURL = existing.params.splitURL ∧
  yaml.params.splitPercent = existing.params.splitPercent ∧
  yaml.params.integrationGA = existing.params.integrationGA ∧
  yaml.params.integrationFB = existing.params.integrationFB ∧
  yaml.params.integrationAdroll = existing.params.integrationAdroll ∧
  yaml.params.integrationGTM = existing.params.integrationGTM ∧
  yaml.params.folderId = existing.params.folderId ∧
  yaml.params.archived = existing.params.archived ∧
  yaml.params.skipQS = existing.params.skipQS

instance fieldsAgreeDecidable (yaml : YamlLink) (existing : ShortioLink) :
    Decidable (fieldsAgree yaml existing) := by
  unfold fieldsAgree
  infer_instance

/-- The key/value entry that `applyDiff` keeps for an observed-map entry:
deleted entries drop out, updated entries are rewritten, the rest survive. -/
def keptEntry (yK : List (String × YamlLink)) (p : String × ShortioLink) :
    Option (String × ShortioLink) :=
  match mapGet yK p.1 with
  | none => if includesManagedTag p.2.params.tags then none else some (p.1, p.2)
  | some y => if needsUpdate y p.2 then some (p.1, rewriteLink y p.2)
              else some (p.1, p.2)

-- ### Concrete fixtures for the witnesses

def sampleLink : YamlLink := { slug := "docs", domain := "short.io", url := "https://d" }

def sampleTagged : YamlLink :=
  { slug := "keep", domain := "short.io", url := "https://k2",
    params := { tags := some [MANAGED_TAG] } }

def sampleExisting : ShortioLink :=
  { id := "1", originalURL := "https://k", path := "keep", domain := "short.io",
    params := { tags := some [MANAGED_TAG] } }

def sampleOld : ShortioLink :=
  { id := "2", originalURL := "https://o", path := "old", domain := "short.io",
    params := { tags := some [MANAGED_TAG] } }

def plainLink : YamlLink := { slug := "s", domain := "d", url := "u" }

def titleEmpty : ShortioLink :=
  { originalURL := "u", path := "s", domain := "d", params := { title := some "" } }

def utmEmpty : ShortioLink :=
  { originalURL := "u", path := "s", domain := "d", params := { utmSource := some "" } }

def tagsEmpty : ShortioLink :=
  { originalURL := "u", path := "s", domain := "d", params := { tags := some [] } }

def permDesired : YamlLink :=
  { slug := "s", domain := "d", url := "u", params := { tags := some ["a", "b"] } }

def permObserved : ShortioLink :=
  { originalURL := "u", path := "s", domain := "d", params := { tags := some ["b", "a"] } }

-- ### Map model lemmas

theorem mapGet_jsMapSet {α : Type} (m : List (String × α)) (k' : String) (v : α)
    (k : String) :
    mapGet (jsMapSet m k' v) k = if k = k' then some v else mapGet m k := by
  induction m with
  | nil =>
    by_cases h : k = k' <;> simp_all [jsMapSet, mapGet, eq_comm]
  | cons p t ih =>
    by_cases hp : p.1 = k' <;> by_cases hk : p.1 = k <;> by_cases hkk : k = k' <;>
      simp_all [jsMapSet, mapGet, eq_comm]


theorem mem_jsMapSet {α : Type} {m : List (String × α)} {k : String} {v : α}
    {q : String × α} (h : q ∈ jsMapSet m k v) : q ∈ m ∨ q = (k, v) := by
  induction m with
  | nil => simp_all [jsMapSet]
  | cons p t ih =>
    by_cases hp : p.1 = k <;> simp_all [jsMapSet] <;> tauto

theorem keys_jsMapSet_subset {α : Type} (m : List (String × α)) (k : String)
    (v : α) : (jsMapSet m k v).map Prod.fst ⊆ k :: m.map Prod.fst := by
  intro a ha
  rcases List.mem_map.mp ha with ⟨q, hq, rfl⟩
  rcases mem_jsMapSet hq with h | h
  · exact List.mem_cons_of_mem _ (List.mem_map_of_mem Prod.fst h)
  · rw [h]
    exact List.mem_cons_self _ _

theorem keys_nodup_jsMapSet {α : Type} {m : List (String × α)} (k : String)
    (v : α) (h : (m.map Prod.fst).Nodup) :
    ((jsMapSet m k v).map Prod.fst).Nodup := by
  induction m with
  | nil => simp [jsMapSet]
  | cons p t ih =>
    simp at h
    by_cases hp : p.1 = k
    · rw [jsMapSet, if_pos hp]
      simp
      refine ⟨?_, h.2⟩
      intro a ha
      exact h.1 a (hp ▸ ha)
    · rw [jsMapSet, if_neg hp]
      simp
      refine ⟨?_, ih h.2⟩
      intro a ha
      rcases mem_jsMapSet ha with h' | h'
      · exact h.1 a h'
      · have : p.1 = k := congrArg Prod.fst h'
        exact hp this

theorem mapGet_eq_some_of_mem {α : Type} {m : List (String × α)} {k : String}
    {v : α} (hn : (m.map Prod.fst).Nodup) (h : (k, v) ∈ m) :
    mapGet m k = some v := by
  induction m with
  | nil => simp at h
  | cons p t ih =>
    simp at hn
    rcases List.mem_cons.mp h with h | h
    · simp [mapGet, ← h]
    · have hpk : ¬ p.1 = k := fun hpk => hn.1 v (hpk ▸ h)
      simp [mapGet, hpk]
      exact ih hn.2 h

theorem mem_of_mapGet_eq_some {α : Type} {m : List (String × α)} {k : String}
    {v : α} (h : mapGet m k = some v) : (k, v) ∈ m := by
  induction m with
  | nil => simp [mapGet] at h
  | cons p t ih =>
    by_cases hp : p.1 = k
    · simp [mapGet, hp] at h
      have : p = (k, v) := Prod.ext hp h
      rw [← this]
      exact List.mem_cons_self p t
    · simp [mapGet, hp] at h
      exact List.mem_cons_of_mem _ (ih h)

theorem mapGet_eq_none_iff {α : Type} {m : List (String × α)} {k : String} :
    mapGet m k = none ↔ k ∉ m.map Prod.fst := by
  induction m with
  | nil => simp [mapGet]
  | cons p t ih =>
    by_cases hp : p.1 = k <;> simp_all [mapGet, eq_comm]

theorem mapGet_foldl {α : Type} (l : List (String × α)) (m : List (String × α))
    (k : String) :
    mapGet (l.foldl (fun m p => jsMapSet m p.1 p.2) m) k
      = match lastBind l k with
        | some v => some v
        | none => mapGet m k := by
  induction l generalizing m with
  | nil => simp [lastBind]
  | cons p t ih =>
    rw [List.foldl_cons, ih, lastBind]
    rcases hlb : lastBind t k with _ | v
    · by_cases h : k = p.1
      · simp [mapGet_jsMapSet, h]
      · simp [mapGet_jsMapSet, h, Ne.symm h]
    · simp

theorem mapGet_buildMap {α : Type} (l : List (String × α)) (k : String) :
    mapGet (buildMap l) k = lastBind l k := by
  rw [buildMap, mapGet_foldl]
  rcases lastBind l k with _ | v <;> simp [mapGet]

theorem mem_foldl_jsMapSet {α : Type} {l : List (String × α)}
    {m : List (String × α)} {q : String × α}
    (h : q ∈ l.foldl (fun m p => jsMapSet m p.1 p.2) m) : q ∈ m ∨ q ∈ l := by
  induction l generalizing m with
  | nil => simp_all
  | cons p t ih =>
    rw [List.foldl_cons] at h
    rcases ih h with h' | h'
    · rcases mem_jsMapSet h' with h2 | h2
      · exact Or.inl h2
      · right
        rw [h2]
        exact List.mem_cons_self _ _
    · exact Or.inr (List.mem_cons_of_mem _ h')

theorem mem_buildMap {α : Type} {l : List (String × α)} {q : String × α}
    (h : q ∈ buildMap l) : q ∈ l := by
  rcases mem_foldl_jsMapSet h with h' | h'
  · simp at h'
  · exact h'

theorem keys_nodup_foldl {α : Type} (l : List (String × α))
    (m : List (String × α)) (h : (m.map Prod.fst).Nodup) :
    ((l.foldl (fun m p => jsMapSet m p.1 p.2) m).map Prod.fst).Nodup := by
  induction l generalizing m with
  | nil => simpa
  | cons p t ih =>
    rw [List.foldl_cons]
    exact ih _ (keys_nodup_jsMapSet p.1 p.2 h)

theorem keys_nodup_buildMap {α : Type} (l : List (String × α)) :
    ((buildMap l).map Prod.fst).Nodup :=
  keys_nodup_foldl l [] (by simp)

theorem lastBind_isSome_of_mem {α : Type} {l : List (String × α)} {k : String}
    {v : α} (h : (k, v) ∈ l) : (lastBind l k).isSome = true := by
  induction l with
  | nil => simp at h
  | cons p t ih =>
    rcases List.mem_cons.mp h with h' | h'
    · rw [lastBind]
      rcases hlb : lastBind t k with _ | w
      · simp [← h']
      · simp
    · rw [lastBind]
      have := ih h'
      rcases hlb : lastBind t k with _ | w
      · rw [hlb] at this
        simp at this
      · simp

theorem mem_of_lastBind_eq_some {α : Type} {l : List (String × α)} {k : String}
    {v : α} (h : lastBind l k = some v) : (k, v) ∈ l := by
  induction l with
  | nil => simp [lastBind] at h
  | cons p t ih =>
    rw [lastBind] at h
    rcases hlb : lastBind t k with _ | w
    · rw [hlb] at h
      by_cases hp : p.1 = k
      · rw [if_pos hp] at h
        simp at h
        have hpkv : p = (k, v) := Prod.ext hp h
        rw [← hpkv]
        exact List.mem_cons_self p t
      · rw [if_neg hp] at h
        simp at h
    · rw [hlb] at h
      simp at h
      exact List.mem_cons_of_mem _ (ih (h ▸ hlb))

theorem lastBind_eq_some_of_mem {α : Type} {l : List (String × α)} {k : String}
    {v : α} (hn : (l.map Prod.fst).Nodup) (h : (k, v) ∈ l) :
    lastBind l k = some v := by
  induction l with
  | nil => simp at h
  | cons p t ih =>
    simp at hn
    rcases List.mem_cons.mp h with h' | h'
    · have hlb : lastBind t k = none := by
        rcases hlb : lastBind t k with _ | w
        · rfl
        · exfalso
          have hw := mem_of_lastBind_eq_some hlb
          have : p.1 = k := congrArg Prod.fst h'.symm
          exact hn.1 w (this ▸ hw)
      rw [lastBind, hlb, ← h']
      simp
    · rw [lastBind, ih hn.2 h']

theorem lastBind_eq_none_iff {α : Type} {l : List (String × α)} {k : String} :
    lastBind l k = none ↔ k ∉ l.map Prod.fst := by
  constructor
  · intro h hk
    rcases List.mem_map.mp hk with ⟨q, hq, rfl⟩
    have hs := @lastBind_isSome_of_mem _ l q.1 q.2
      (by rw [Prod.mk.eta]; exact hq)
    rw [h] at hs
    simp at hs
  · intro h
    rcases hlb : lastBind l k with _ | v
    · rfl
    · exact absurd (List.mem_map_of_mem Prod.fst (mem_of_lastBind_eq_some hlb)) h

-- ### arraysEqual and needsUpdate lemmas

theorem zip_self_all_beq (l : List String) :
    ((l.zip l).all fun q => q.1 == q.2) = true := by
  induction l with
  | nil => rfl
  | cons a t ih => simpa using ih

theorem arraysEqual_refl (t : Option (List String)) : arraysEqual t t = true := by
  rcases t with _ | a
  · rfl
  · simp [arraysEqual, zip_self_all_beq]

theorem insertionSort_eq_of_perm {a b : List String} (h : a.Perm b) :
    List.insertionSort (fun x y : String => x ≤ y) a
      = List.insertionSort (fun x y : String => x ≤ y) b := by
  exact List.eq_of_perm_of_sorted
    (((List.perm_insertionSort _ a).trans h).trans
      (List.perm_insertionSort _ b).symm)
    (List.sorted_insertionSort _ a)
    (List.sorted_insertionSort _ b)

theorem arraysEqual_of_perm {a b : List String} (h : a.Perm b) :
    arraysEqual (some a) (some b) = true := by
  rw [arraysEqual]
  rw [if_pos h.length_eq, insertionSort_eq_of_perm h, zip_self_all_beq]

theorem needsUpdate_eq_false (yaml : YamlLink) (existing : ShortioLink)
    (hf : fieldsAgree yaml existing)
    (ht : arraysEqual yaml.params.tags existing.params.tags = true) :
    needsUpdate yaml existing = false := by
  obtain ⟨h1, h2, h3, h4, h5, h6, h7, h8, h9, h10, h11, h12, h13, h14, h15,
    h16, h17, h18, h19, h20, h21, h22, h23, h24, h25⟩ := hf
  simp [needsUpdate, h1, h2, h3, h4, h5, h6, h7, h8, h9, h10, h11, h12, h13,
    h14, h15, h16, h17, h18, h19, h20, h21, h22, h23, h24, h25, ht]

theorem needsUpdate_of_tags_ne (yaml : YamlLink) (existing : ShortioLink)
    (ht : arraysEqual yaml.params.tags existing.params.tags = false) :
    needsUpdate yaml existing = true := by
  simp [needsUpdate, ht]

-- ### executeSync phase lemmas

theorem foldl_guard {α β : Type} (l : List α) (f : β → α → β) (a : β) :
    (if l.length > 0 then l.foldl f a else a) = l.foldl f a := by
  cases l <;> simp

theorem createPhase_real (cOp : CreateBody → Except String Unit)
    (ls : List YamlLink) (r : SyncResult) (c : Nat) :
    ls.foldl (createStep cOp false) (r, c)
      = ({ r with
            created := r.created + ls.countP (fun l => exceptOk (cOp (buildCreateBody l))),
            errors := r.errors ++ opFailures (fun l => cOp (buildCreateBody l)) createMsg ls },
          c + ls.length) := by
  induction ls generalizing r c with
  | nil => simp [opFailures]
  | cons a t ih =>
    rw [List.foldl_cons]
    rcases hop : cOp (buildCreateBody a) with e | u
    · simp only [createStep, Bool.false_eq_true, if_false, hop]
      rw [ih]
      simp [opFailures, createMsg, exceptOk, List.countP_cons, hop,
        List.append_assoc]
      omega
    · simp only [createStep, Bool.false_eq_true, if_false, hop]
      rw [ih]
      simp [opFailures, createMsg, exceptOk, List.countP_cons, hop,
        List.append_assoc]
      omega

theorem updatePhase_real (uOp : String → UpdateBody → Except String Unit)
    (ls : List (YamlLink × ShortioLink)) (r : SyncResult) (c : Nat) :
    ls.foldl (updateStep uOp false) (r, c)
      = ({ r with
            updated := r.updated + ls.countP (fun p => exceptOk (uOp p.2.id (buildUpdateBody p.1))),
            errors := r.errors ++ opFailures (fun p => uOp p.2.id (buildUpdateBody p.1)) updateMsg ls },
          c + ls.length) := by
  induction ls generalizing r c with
  | nil => simp [opFailures]
  | cons a t ih =>
    rw [List.foldl_cons]
    rcases hop : uOp a.2.id (buildUpdateBody a.1) with e | u
    · simp only [updateStep, Bool.false_eq_true, if_false, hop]
      rw [ih]
      simp [opFailures, updateMsg, exceptOk, List.countP_cons, hop,
        List.append_assoc]
      omega
    · simp only [updateStep, Bool.false_eq_true, if_false, hop]
      rw [ih]
      simp [opFailures, updateMsg, exceptOk, List.countP_cons, hop,
        List.append_assoc]
      omega

theorem deletePhase_real (dOp : String → Except String Unit)
    (ls : List ShortioLink) (r : SyncResult) (c : Nat) :
    ls.foldl (deleteStep dOp false) (r, c)
      = ({ r with
            deleted := r.deleted + ls.countP (fun l => exceptOk (dOp l.id)),
            errors := r.errors ++ opFailures (fun l => dOp l.id) deleteMsg ls },
          c + ls.length) := by
  induction ls generalizing r c with
  | nil => simp [opFailures]
  | cons a t ih =>
    rw [List.foldl_cons]
    rcases hop : dOp a.id with e | u
    · simp only [deleteStep, Bool.false_eq_true, if_false, hop]
      rw [ih]
      simp [opFailures, deleteMsg, exceptOk, List.countP_cons, hop,
        List.append_assoc]
      omega
    · simp only [deleteStep, Bool.false_eq_true, if_false, hop]
      rw [ih]
      simp [opFailures, deleteMsg, exceptOk, List.countP_cons, hop,
        List.append_assoc]
      omega

theorem createPhase_dry (cOp : CreateBody → Except String Unit)
    (ls : List YamlLink) (r : SyncResult) (c : Nat) :
    ls.foldl (createStep cOp true) (r, c)
      = ({ r with created := r.created + ls.length }, c) := by
  induction ls generalizing r c with
  | nil => simp
  | cons a t ih =>
    rw [List.foldl_cons]
    simp only [createStep, if_pos rfl]
    rw [ih]
    simp
    omega

theorem updatePhase_dry (uOp : String → UpdateBody → Except String Unit)
    (ls : List (YamlLink × ShortioLink)) (r : SyncResult) (c : Nat) :
    ls.foldl (updateStep uOp true) (r, c)
      = ({ r with updated := r.updated + ls.length }, c) := by
  induction ls generalizing r c with
  | nil => simp
  | cons a t ih =>
    rw [List.foldl_cons]
    simp only [updateStep, if_pos rfl]
    rw [ih]
    simp
    omega

theorem deletePhase_dry (dOp : String → Except String Unit)
    (ls : List ShortioLink) (r : SyncResult) (c : Nat) :
    ls.foldl (deleteStep dOp true) (r, c)
      = ({ r with deleted := r.deleted + ls.length }, c) := by
  induction ls generalizing r c with
  | nil => simp
  | cons a t ih =>
    rw [List.foldl_cons]
    simp only [deleteStep, if_pos rfl]
    rw [ih]
    simp
    omega

theorem exceptOk_error {ε α : Type} (e : ε) :
    exceptOk (Except.error e : Except ε α) = false := rfl

theorem exceptOk_ok {ε α : Type} (u : α) :
    exceptOk (Except.ok u : Except ε α) = true := rfl

theorem opFailures_length {α : Type} (f : α → Except String Unit)
    (msg : α → String) (ls : List α) :
    (opFailures f msg ls).length = ls.countP (fun a => !(exceptOk (f a))) := by
  induction ls with
  | nil => rfl
  | cons a t ih =>
    rcases hop : f a with e | u <;>
      simp [opFailures, List.countP_cons, hop, exceptOk_error, exceptOk_ok, ih]

theorem executeSync_real_eq (diff : LinkDiff)
    (cOp : CreateBody → Except String Unit)
    (uOp : String → UpdateBody → Except String Unit)
    (dOp : String → Except String Unit) :
    executeSync diff false cOp uOp dOp
      = ({ created := diff.toCreate.countP (fun l => exceptOk (cOp (buildCreateBody l))),
           updated := diff.toUpdate.countP (fun p => exceptOk (uOp p.2.id (buildUpdateBody p.1))),
           deleted := diff.toDelete.countP (fun l => exceptOk (dOp l.id)),
           errors := opFailures (fun l => cOp (buildCreateBody l)) createMsg diff.toCreate
             ++ (opFailures (fun p => uOp p.2.id (buildUpdateBody p.1)) updateMsg diff.toUpdate
               ++ opFailures (fun l => dOp l.id) deleteMsg diff.toDelete) },
          diff.toCreate.length + diff.toUpdate.length + diff.toDelete.length) := by
  simp only [executeSync, foldl_guard]
  rw [createPhase_real, updatePhase_real, deletePhase_real]
  simp [List.append_assoc, Nat.add_assoc]

theorem executeSync_dry_eq (diff : LinkDiff)
    (cOp : CreateBody → Except String Unit)
    (uOp : String → UpdateBody → Except String Unit)
    (dOp : String → Except String Unit) :
    executeSync diff true cOp uOp dOp
      = ({ created := diff.toCreate.length, updated := diff.toUpdate.length,
           deleted := diff.toDelete.length, errors := [] }, 0) := by
  simp only [executeSync, foldl_guard]
  rw [createPhase_dry, updatePhase_dry, deletePhase_dry]
  simp

/-- Claim C2: `executeSync` never throws (it is a total function into
`SyncResult`, every primitive failure being captured in the accumulator); in
real mode `errors.length` is exactly the number of create/update/delete
operations that failed and `created + updated + deleted` exactly the number
that succeeded; in dry-run mode the counts equal the lengths of the
attempted-and-logged lists; the error list carries one entry per failed
item in order, so one item's failure never aborts or skips later items. -/
theorem c2_executeSync_accounting (diff : LinkDiff)
    (cOp : CreateBody → Except String Unit)
    (uOp : String → UpdateBody → Except String Unit)
    (dOp : String → Except String Unit) :
    ((executeSync diff false cOp uOp dOp).1.errors.length
        = diff.toCreate.countP (fun l => !(exceptOk (cOp (buildCreateBody l))))
          + diff.toUpdate.countP (fun p => !(exceptOk (uOp p.2.id (buildUpdateBody p.1))))
          + diff.toDelete.countP (fun l => !(exceptOk (dOp l.id))))
    ∧ ((executeSync diff false cOp uOp dOp).1.created
          + (executeSync diff false cOp uOp dOp).1.updated
          + (executeSync diff false cOp uOp dOp).1.deleted
        = diff.toCreate.countP (fun l => exceptOk (cOp (buildCreateBody l)))
          + diff.toUpdate.countP (fun p => exceptOk (uOp p.2.id (buildUpdateBody p.1)))
          + diff.toDelete.countP (fun l => exceptOk (dOp l.id)))
    ∧ ((executeSync diff false cOp uOp dOp).1.errors
        = opFailures (fun l => cOp (buildCreateBody l)) createMsg diff.toCreate
          ++ (opFailures (fun p => uOp p.2.id (buildUpdateBody p.1)) updateMsg diff.toUpdate
            ++ opFailures (fun l => dOp l.id) deleteMsg diff.toDelete))
    ∧ executeSync diff true cOp uOp dOp
        = ({ created := diff.toCreate.length, updated := diff.toUpdate.length,
             deleted := diff.toDelete.length, errors := [] }, 0) := by
  refine ⟨?_, ?_, ?_, executeSync_dry_eq diff cOp uOp dOp⟩ <;>
    rw [executeSync_real_eq] <;>
    simp [opFailures_length, Nat.add_assoc]

/-- Claim C5: executing any non-empty diff in dry-run mode returns counts
equal to the three list lengths with no errors, and invokes none of the
create/update/delete primitives (the invocation counter stays 0). -/
theorem c5_dry_run (diff : LinkDiff)
    (cOp : CreateBody → Except String Unit)
    (uOp : String → UpdateBody → Except String Unit)
    (dOp : String → Except String Unit)
    (_hne : diff.toCreate ≠ [] ∨ diff.toUpdate ≠ [] ∨ diff.toDelete ≠ []) :
    executeSync diff true cOp uOp dOp
      = ({ created := diff.toCreate.length, updated := diff.toUpdate.length,
           deleted := diff.toDelete.length, errors := [] }, 0) :=
  executeSync_dry_eq diff cOp uOp dOp

/-- Claim C3: in real mode the creation request's tag list is the desired
tag list with the management marker appended (desired tags preserved, not
replaced), and the update request's tag list always contains the marker —
added when absent, the desired list kept untouched when present — so under
the data model's set-of-tags reading (no duplicates) the marker occurs
exactly once. -/
theorem c3_request_tags (y : YamlLink) :
    ((buildCreateBody y).params.tags
        = some (y.params.tags.getD [] ++ [MANAGED_TAG]))
    ∧ (buildUpdateBody y).params.tags = some (updateRequestTags y.params.tags)
    ∧ MANAGED_TAG ∈ updateRequestTags y.params.tags
    ∧ ((y.params.tags.getD []).Nodup →
        (updateRequestTags y.params.tags).count MANAGED_TAG = 1) := by
  refine ⟨?_, rfl, ?_, ?_⟩
  · show some (createRequestTags y.params.tags) = _
    rcases y.params.tags with _ | ts <;> simp [createRequestTags]
  · rw [updateRequestTags]
    by_cases hm : MANAGED_TAG ∈ y.params.tags.getD []
    · rw [if_pos hm]
      exact hm
    · rw [if_neg hm]
      simp
  · intro hn
    rw [updateRequestTags]
    by_cases hm : MANAGED_TAG ∈ y.params.tags.getD []
    · rw [if_pos hm]
      exact List.count_eq_one_of_mem hn hm
    · rw [if_neg hm]
      rw [List.count_append]
      rw [List.count_eq_zero_of_not_mem hm]
      simp

-- ### Identity-key lemmas

theorem splitAtChar_unique {c : Char} :
    ∀ (xs xs' ys ys' : List Char), c ∉ ys → c ∉ ys' →
      xs ++ c :: ys = xs' ++ c :: ys' → xs = xs' ∧ ys = ys' := by
  intro xs
  induction xs with
  | nil =>
    intro xs' ys ys' hy hy' h
    cases xs' with
    | nil =>
      simp at h
      exact ⟨rfl, h⟩
    | cons a t =>
      simp at h
      exfalso
      apply hy
      rw [h.2]
      exact List.mem_append_right t (List.mem_cons_self c ys')
  | cons a t ih =>
    intro xs' ys ys' hy hy' h
    cases xs' with
    | nil =>
      simp at h
      exfalso
      apply hy'
      rw [← h.2]
      exact List.mem_append_right t (List.mem_cons_self c ys)
    | cons a' t' =>
      simp at h
      rcases ih t' ys ys' hy hy' h.2 with ⟨h1, h2⟩
      exact ⟨by rw [h.1, h1], h2⟩

theorem string_ext {s t : String} (h : s.data = t.data) : s = t := by
  cases s
  cases t
  exact congrArg String.mk h

theorem getLinkKey_data (domain slug : String) :
    (getLinkKey domain slug).data = domain.data ++ '/' :: slug.data := by
  simp [getLinkKey, String.data_append]

/-- Claim C8 counterexample: `getLinkKey` is not injective — the distinct
pairs ("a/b", "c") and ("a", "b/c") produce the same key "a/b/c". -/
theorem c8_counterexample :
    getLinkKey "a/b" "c" = getLinkKey "a" "b/c"
      ∧ (("a/b", "c") : String × String) ≠ ("a", "b/c") := by
  constructor
  · rfl
  · decide

/-- Claim C8 amended: the identity key is injective on pairs whose name
(slug) component is slash-free; with a '/' allowed inside either component
distinct pairs can collapse (see the counterexample). -/
theorem c8_amended (d1 s1 d2 s2 : String)
    (h1 : '/' ∉ s1.data) (h2 : '/' ∉ s2.data)
    (h : getLinkKey d1 s1 = getLinkKey d2 s2) : d1 = d2 ∧ s1 = s2 := by
  have hd : (getLinkKey d1 s1).data = (getLinkKey d2 s2).data := by rw [h]
  rw [getLinkKey_data, getLinkKey_data] at hd
  rcases splitAtChar_unique d1.data d2.data s1.data s2.data h1 h2 hd with ⟨ha, hb⟩
  exact ⟨string_ext ha, string_ext hb⟩

-- ### Domain-id resolution lemmas

theorem mapGet_populateCache_isSome (cache ds : List (String × Nat))
    (n : String) (i : Nat) (h : (n, i) ∈ ds) :
    (mapGet (populateCache cache ds) n).isSome = true := by
  rw [populateCache, mapGet_foldl]
  have hs := lastBind_isSome_of_mem h
  rcases hlb : lastBind ds n with _ | v
  · rw [hlb] at hs
    simp at hs
  · simp

/-- Claim C9 counterexample: a domain listed with id 0 is present in the
listing, yet `resolveDomainId` fails with the not-found error (the `!id`
falsiness check), contradicting "fails exactly when absent". -/
theorem c9_counterexample :
    (resolveDomainId [] (Except.ok [("x", 0)]) "x").1
        = Except.error DomainError.notFound
      ∧ ("x", (0 : Nat)) ∈ [("x", (0 : Nat))] := by
  exact ⟨rfl, List.mem_singleton.mpr rfl⟩

/-- Claim C9 amended: a cached hostname is answered from the cache with no
listing call; otherwise one listing call is made, the cache is populated
with every returned domain, and the call fails with the not-found error
exactly when the requested hostname resolves to nothing **or to the falsy
id 0** after population, returning the resolved id otherwise. -/
theorem c9_amended (cache : List (String × Nat))
    (listing : Except Unit (List (String × Nat))) (h : String) :
    (∀ i, mapGet cache h = some i →
        resolveDomainId cache listing h = (Except.ok i, cache, 0))
    ∧ (∀ ds, mapGet cache h = none → listing = Except.ok ds →
        ((resolveDomainId cache listing h).2.1 = populateCache cache ds
          ∧ (resolveDomainId cache listing h).2.2 = 1
          ∧ (∀ n i, (n, i) ∈ ds →
              (mapGet (populateCache cache ds) n).isSome = true)
          ∧ ((resolveDomainId cache listing h).1
                = Except.error DomainError.notFound
              ↔ (mapGet (populateCache cache ds) h = none
                  ∨ mapGet (populateCache cache ds) h = some 0))
          ∧ (∀ i, mapGet (populateCache cache ds) h = some i → i ≠ 0 →
              (resolveDomainId cache listing h).1 = Except.ok i))) := by
  constructor
  · intro i hi
    simp [resolveDomainId, hi]
  · intro ds hc hl
    subst hl
    refine ⟨?_, ?_, fun n i h' => mapGet_populateCache_isSome cache ds n i h', ?_, ?_⟩
    · rcases hp : mapGet (populateCache cache ds) h with _ | i
      · simp [resolveDomainId, hc, hp]
      · by_cases hi : i = 0 <;> simp [resolveDomainId, hc, hp, hi]
    · rcases hp : mapGet (populateCache cache ds) h with _ | i
      · simp [resolveDomainId, hc, hp]
      · by_cases hi : i = 0 <;> simp [resolveDomainId, hc, hp, hi]
    · rcases hp : mapGet (populateCache cache ds) h with _ | i
      · simp [resolveDomainId, hc, hp]
      · by_cases hi : i = 0 <;> simp [resolveDomainId, hc, hp, hi]
    · intro i hp hi
      simp [resolveDomainId, hc, hp, hi]

-- ### Diff classification lemmas

theorem mapHas_false_iff {α : Type} (m : List (String × α)) (k : String) :
    (!(mapHas m k)) = true ↔ mapGet m k = none := by
  rw [mapHas]
  rcases mapGet m k with _ | v <;> simp

theorem existingByKey_keys_nodup (es : List ShortioLink) :
    ((existingByKey es).map Prod.fst).Nodup :=
  keys_nodup_buildMap _

theorem yamlByKey_keys_nodup (ys : List YamlLink) :
    ((yamlByKey ys).map Prod.fst).Nodup :=
  keys_nodup_buildMap _

theorem existingByKey_entry_key {es : List ShortioLink} {k : String}
    {e : ShortioLink} (h : (k, e) ∈ existingByKey es) :
    k = linkKeyOfExisting e := by
  have := mem_buildMap h
  rcases List.mem_map.mp this with ⟨l, _, hl⟩
  have h1 : k = linkKeyOfExisting l := (congrArg Prod.fst hl).symm
  have h2 : e = l := (congrArg Prod.snd hl).symm
  rw [h1, h2]

theorem yamlByKey_entry_key {ys : List YamlLink} {k : String}
    {y : YamlLink} (h : (k, y) ∈ yamlByKey ys) :
    k = linkKeyOfYaml y := by
  have := mem_buildMap h
  rcases List.mem_map.mp this with ⟨l, _, hl⟩
  have h1 : k = linkKeyOfYaml l := (congrArg Prod.fst hl).symm
  have h2 : y = l := (congrArg Prod.snd hl).symm
  rw [h1, h2]

/-- Claim C1: an observed resource whose key is absent from the desired
collection is placed in `toDelete` exactly when its tag list contains the
management marker, and nothing ever enters `toDelete` without the marker. -/
theorem c1_delete_requires_marker (ys : List YamlLink) (es : List ShortioLink)
    (k : String) (e : ShortioLink) (he : (k, e) ∈ existingByKey es)
    (habsent : mapGet (yamlByKey ys) k = none) :
    (e ∈ (computeDiffPure ys es).toDelete
      ↔ includesManagedTag e.params.tags = true)
    ∧ ∀ e', e' ∈ (computeDiffPure ys es).toDelete →
        includesManagedTag e'.params.tags = true := by
  constructor
  · constructor
    · intro hmem
      simp only [computeDiffPure, List.mem_map, List.mem_filter] at hmem
      rcases hmem with ⟨p, ⟨_, hcond⟩, hpe⟩
      rw [Bool.and_eq_true] at hcond
      rw [← hpe]
      exact hcond.2
    · intro hmarker
      simp only [computeDiffPure, List.mem_map, List.mem_filter]
      refine ⟨(k, e), ⟨he, ?_⟩, rfl⟩
      rw [Bool.and_eq_true]
      exact ⟨(mapHas_false_iff _ _).mpr habsent, hmarker⟩
  · intro e' hmem
    simp only [computeDiffPure, List.mem_map, List.mem_filter] at hmem
    rcases hmem with ⟨p, ⟨_, hcond⟩, hpe⟩
    rw [Bool.and_eq_true] at hcond
    rw [← hpe]
    exact hcond.2

/-- Claim C10: a desired resource with no tag field against an
otherwise-identical observed resource with an empty tag list is classified
as an update — missing and empty tag sets are not equivalent (unlike the
title, where missing and empty coincide). -/
theorem c10_missing_vs_empty_tags (ys : List YamlLink) (es : List ShortioLink)
    (k : String) (y : YamlLink) (e : ShortioLink)
    (hy : (k, y) ∈ yamlByKey ys) (he : (k, e) ∈ existingByKey es)
    (hyt : y.params.tags = none) (het : e.params.tags = some []) :
    (y, e) ∈ (computeDiffPure ys es).toUpdate := by
  have hget : mapGet (existingByKey es) k = some e :=
    mapGet_eq_some_of_mem (existingByKey_keys_nodup es) he
  have hneq : needsUpdate y e = true := by
    apply needsUpdate_of_tags_ne
    rw [hyt, het]
    rfl
  simp only [computeDiffPure, List.mem_filterMap]
  refine ⟨(k, y), hy, ?_⟩
  rw [hget]
  simp [hneq]

/-- Claim C6 counterexample: desired `utmSource` undefined against observed
`utmSource: ""` on otherwise-identical resources does trigger an update —
the missing≡empty-string equivalence does not extend beyond the title. -/
theorem c6_counterexample :
    needsUpdate
        { slug := "s", domain := "d", url := "https://u" }
        { id := "1", originalURL := "https://u", path := "s", domain := "d",
          params := { utmSource := some "" } } = true
      ∧ (computeDiffPure
          [{ slug := "s", domain := "d", url := "https://u" }]
          [{ id := "1", originalURL := "https://u", path := "s", domain := "d",
             params := { utmSource := some "" } }]).toUpdate.length = 1 := by
  constructor
  · decide
  · decide

/-- Claim C6 amended: the missing/undefined ≡ empty-string equivalence
holds exactly for the title attribute (its comparison coalesces both sides
with `|| ''`); every other textual attribute compares strictly, so an
undefined desired value against an observed `""` does trigger an update. -/
theorem c6_title_only_equivalence (y : YamlLink) (e : ShortioLink) :
    (y.params.title = none → e.params.title = some "" → fieldsAgree y e →
      arraysEqual y.params.tags e.params.tags = true →
      needsUpdate y e = false)
    ∧ (y.params.utmSource = none → e.params.utmSource = some "" →
      needsUpdate y e = true) := by
  constructor
  · intro _ _ hf ht
    exact needsUpdate_eq_false y e hf ht
  · intro hy he
    simp [needsUpdate, hy, he]

/-- Claim C7: tag comparison is order-independent — permuted tag lists
compare equal, and two resources identical up to tag order are classified
as unchanged. -/
theorem c7_tag_order (a b : List String) (y : YamlLink) (e : ShortioLink) :
    (a.Perm b → arraysEqual (some a) (some b) = true)
    ∧ (y.params.tags = some a → e.params.tags = some b → a.Perm b →
        fieldsAgree y e → needsUpdate y e = false) := by
  constructor
  · exact arraysEqual_of_perm
  · intro hy he hp hf
    apply needsUpdate_eq_false y e hf
    rw [hy, he]
    exact arraysEqual_of_perm hp

-- ### Post-sync state lemmas (claim C4)

theorem keptEntry_fst {yK : List (String × YamlLink)} {p q : String × ShortioLink}
    (h : keptEntry yK p = some q) : q.1 = p.1 := by
  rw [keptEntry] at h
  split at h
  · split at h
    · exact absurd h (by simp)
    · exact (congrArg Prod.fst (Option.some.inj h)).symm
  · split at h
    · exact (congrArg Prod.fst (Option.some.inj h)).symm
    · exact (congrArg Prod.fst (Option.some.inj h)).symm

theorem applyDiff_pairs (ys : List YamlLink) (es : List ShortioLink) :
    (applyDiff ys es).map (fun l => (linkKeyOfExisting l, l))
      = (existingByKey es).filterMap (keptEntry (yamlByKey ys))
        ++ ((yamlByKey ys).filter fun p => !(mapHas (existingByKey es) p.1)).map
            (fun p => (p.1, createdLink p.2)) := by
  rw [applyDiff, List.map_append]
  congr 1
  · rw [List.map_filterMap]
    apply List.filterMap_congr
    intro p hp
    have hk : p.1 = linkKeyOfExisting p.2 := existingByKey_entry_key hp
    rw [keptEntry]
    rcases hg : mapGet (yamlByKey ys) p.1 with _ | y
    · cases hb : includesManagedTag p.2.params.tags <;> simp [hb, ← hk]
    · cases hb : needsUpdate y p.2
      · simp [hb, rewriteLink, linkKeyOfExisting, getLinkKey]
        exact Prod.ext hk.symm rfl
      · simp [hb, rewriteLink, linkKeyOfExisting, getLinkKey]
        exact hk.symm
  · rw [List.map_map]
    apply List.map_congr_left
    intro p hp
    have hp' : p ∈ yamlByKey ys := List.mem_of_mem_filter hp
    have hk : p.1 = linkKeyOfYaml p.2 := yamlByKey_entry_key hp'
    show (linkKeyOfExisting (createdLink p.2), createdLink p.2) = (p.1, createdLink p.2)
    rw [hk]
    rfl

theorem filterMap_keptEntry_keys_sublist (yK : List (String × YamlLink))
    (eK : List (String × ShortioLink)) :
    ((eK.filterMap (keptEntry yK)).map Prod.fst).Sublist (eK.map Prod.fst) := by
  induction eK with
  | nil => simp
  | cons p t ih =>
    rw [List.filterMap_cons]
    rcases hk : keptEntry yK p with _ | q
    · exact ih.trans (List.sublist_cons_self _ _)
    · rw [List.map_cons, List.map_cons, keptEntry_fst hk]
      exact ih.cons₂ p.1

theorem applyDiff_keys_nodup (ys : List YamlLink) (es : List ShortioLink) :
    (((applyDiff ys es).map (fun l => (linkKeyOfExisting l, l))).map Prod.fst).Nodup := by
  rw [applyDiff_pairs, List.map_append]
  apply List.Nodup.append
  · exact (filterMap_keptEntry_keys_sublist _ _).nodup (existingByKey_keys_nodup es)
  · rw [List.map_map]
    exact ((List.filter_sublist _).map _).nodup (yamlByKey_keys_nodup ys)
  · intro k hk1 hk2
    rw [List.map_map] at hk2
    rcases List.mem_map.mp hk2 with ⟨p, hpmem, hpk⟩
    have hcond := (List.mem_filter.mp hpmem).2
    rw [show ((fun q => Prod.fst q) ∘ fun p => (p.1, createdLink p.2)) p = p.1 from rfl] at hpk
    have hnone : mapGet (existingByKey es) p.1 = none := by
      rw [mapHas] at hcond
      rcases hg : mapGet (existingByKey es) p.1 with _ | v
      · rfl
      · rw [hg] at hcond
        simp at hcond
    have hnotin : k ∉ (existingByKey es).map Prod.fst := by
      rw [← hpk]
      exact mapGet_eq_none_iff.mp hnone
    exact hnotin ((filterMap_keptEntry_keys_sublist _ _).subset hk1)

theorem mapGet_applyDiff_matched (ys : List YamlLink) (es : List ShortioLink)
    (k : String) (y : YamlLink) (e : ShortioLink)
    (hy : mapGet (yamlByKey ys) k = some y)
    (hge : mapGet (existingByKey es) k = some e) :
    mapGet (existingByKey (applyDiff ys es)) k
      = some (if needsUpdate y e then rewriteLink y e else e) := by
  have hmem : (k, if needsUpdate y e then rewriteLink y e else e)
      ∈ (applyDiff ys es).map (fun l => (linkKeyOfExisting l, l)) := by
    rw [applyDiff_pairs]
    apply List.mem_append_left
    apply List.mem_filterMap.mpr
    refine ⟨(k, e), mem_of_mapGet_eq_some hge, ?_⟩
    rw [keptEntry]
    simp only [hy]
    cases hb : needsUpdate y e <;> simp [hb]
  rw [existingByKey, mapGet_buildMap]
  exact lastBind_eq_some_of_mem (applyDiff_keys_nodup ys es) hmem

theorem mapGet_applyDiff_created (ys : List YamlLink) (es : List ShortioLink)
    (k : String) (y : YamlLink)
    (hy : (k, y) ∈ yamlByKey ys)
    (hge : mapGet (existingByKey es) k = none) :
    mapGet (existingByKey (applyDiff ys es)) k = some (createdLink y) := by
  have hmem : (k, createdLink y)
      ∈ (applyDiff ys es).map (fun l => (linkKeyOfExisting l, l)) := by
    rw [applyDiff_pairs]
    apply List.mem_append_right
    apply List.mem_map.mpr
    refine ⟨(k, y), List.mem_filter.mpr ⟨hy, ?_⟩, rfl⟩
    rw [mapHas, hge]
    rfl
  rw [existingByKey, mapGet_buildMap]
  exact lastBind_eq_some_of_mem (applyDiff_keys_nodup ys es) hmem

theorem applyDiff_toCreate_nil (ys : List YamlLink) (es : List ShortioLink) :
    (computeDiffPure ys (applyDiff ys es)).toCreate = [] := by
  simp only [computeDiffPure]
  rw [List.map_eq_nil_iff, List.filter_eq_nil_iff]
  intro p hp
  have hy : mapGet (yamlByKey ys) p.1 = some p.2 :=
    mapGet_eq_some_of_mem (yamlByKey_keys_nodup ys) hp
  rcases hge : mapGet (existingByKey es) p.1 with _ | e
  · have hc := mapGet_applyDiff_created ys es p.1 p.2 hp hge
    simp [mapHas, hc]
  · have hc := mapGet_applyDiff_matched ys es p.1 p.2 e hy hge
    simp [mapHas, hc]

theorem applyDiff_toDelete_nil (ys : List YamlLink) (es : List ShortioLink) :
    (computeDiffPure ys (applyDiff ys es)).toDelete = [] := by
  simp only [computeDiffPure]
  rw [List.map_eq_nil_iff, List.filter_eq_nil_iff]
  intro q hq
  have hq' : q ∈ (applyDiff ys es).map (fun l => (linkKeyOfExisting l, l)) :=
    mem_buildMap hq
  rw [applyDiff_pairs] at hq'
  rcases List.mem_append.mp hq' with hq1 | hq2
  · rcases List.mem_filterMap.mp hq1 with ⟨p, hpmem, hpk⟩
    rw [keptEntry] at hpk
    split at hpk
    · rename_i hg
      split at hpk
      · exact absurd hpk (by simp)
      · rename_i hmark
        have hqp : q = (p.1, p.2) := (Option.some.inj hpk).symm
        rw [hqp]
        simp only [Bool.and_eq_true, not_and]
        intro _
        simp only [Bool.not_eq_true] at hmark
        intro hmm
        rw [hmark] at hmm
        cases hmm
    · rename_i y hg
      have hk1 : q.1 = p.1 := by
        split at hpk <;> exact (congrArg Prod.fst (Option.some.inj hpk)).symm
      rw [Bool.and_eq_true, not_and]
      intro habs
      rw [hk1, mapHas, hg] at habs
      simp at habs
  · rcases List.mem_map.mp hq2 with ⟨p, hpmem, hpq⟩
    have hp' : p ∈ yamlByKey ys := List.mem_of_mem_filter hpmem
    have hy : mapGet (yamlByKey ys) p.1 = some p.2 :=
      mapGet_eq_some_of_mem (yamlByKey_keys_nodup ys) hp'
    have hk1 : q.1 = p.1 := (congrArg Prod.fst hpq).symm
    rw [Bool.and_eq_true, not_and]
    intro habs
    rw [hk1, mapHas, hy] at habs
    simp at habs

theorem needsUpdate_rewriteLink (y : YamlLink) (e : ShortioLink)
    (hm : MANAGED_TAG ∈ y.params.tags.getD []) :
    needsUpdate y (rewriteLink y e) = false := by
  rcases ht : y.params.tags with _ | ts
  · rw [ht] at hm
    simp at hm
  · rw [ht] at hm
    simp only [Option.getD_some] at hm
    apply needsUpdate_eq_false
    · simp [fieldsAgree, rewriteLink]
    · show arraysEqual y.params.tags (some (updateRequestTags y.params.tags)) = true
      rw [ht, updateRequestTags]
      simp only [Option.getD_some]
      rw [if_pos hm]
      exact arraysEqual_refl (some ts)

theorem mem_toUpdate_intro (ys : List YamlLink) (es : List ShortioLink)
    (k : String) (y : YamlLink) (e : ShortioLink)
    (hy : (k, y) ∈ yamlByKey ys)
    (hge : mapGet (existingByKey es) k = some e)
    (hne : needsUpdate y e = true) :
    (y, e) ∈ (computeDiffPure ys es).toUpdate := by
  simp only [computeDiffPure, List.mem_filterMap]
  refine ⟨(k, y), hy, ?_⟩
  rw [hge]
  simp [hne]

theorem applyDiff_toUpdate_nil (ys : List YamlLink) (es : List ShortioLink)
    (hc : (computeDiffPure ys es).toCreate = [])
    (hm : ∀ p ∈ (computeDiffPure ys es).toUpdate,
        MANAGED_TAG ∈ p.1.params.tags.getD []) :
    (computeDiffPure ys (applyDiff ys es)).toUpdate = [] := by
  have hall : ∀ p ∈ yamlByKey ys, ∃ e, mapGet (existingByKey es) p.1 = some e := by
    simp only [computeDiffPure] at hc
    rw [List.map_eq_nil_iff, List.filter_eq_nil_iff] at hc
    intro p hp
    have := hc p hp
    rcases hg : mapGet (existingByKey es) p.1 with _ | e
    · exfalso
      apply this
      rw [mapHas, hg]
      rfl
    · exact ⟨e, rfl⟩
  simp only [computeDiffPure, List.filterMap_eq_nil_iff]
  intro p hp
  have hy : mapGet (yamlByKey ys) p.1 = some p.2 :=
    mapGet_eq_some_of_mem (yamlByKey_keys_nodup ys) hp
  obtain ⟨e, hge⟩ := hall p hp
  have hK' := mapGet_applyDiff_matched ys es p.1 p.2 e hy hge
  rw [hK']
  cases hb : needsUpdate p.2 e
  · rw [hb] at hK'
    simp [hb]
  · have hmem := mem_toUpdate_intro ys es p.1 p.2 e hp hge hb
    have hmk := hm (p.2, e) hmem
    have hfix := needsUpdate_rewriteLink p.2 e hmk
    simp [hb, hfix]

/-- Claim C4 counterexample: the diff is not idempotent against the
executor-faithful post-sync state — syncing one created link writes the
management marker into its tags, so re-running the diff flags it for
update (desired tags lack the marker the executor injected). -/
theorem c4_counterexample :
    computeDiffPure [{ slug := "docs", domain := "short.io", url := "https://d" }]
        (applyDiff [{ slug := "docs", domain := "short.io", url := "https://d" }] [])
      ≠ { toCreate := [], toUpdate := [], toDelete := [] } := by
  decide

/-- Claim C4 amended: re-running the diff against the executor-faithful
post-sync state always yields empty `toCreate` and `toDelete`; it is fully
idempotent (`toUpdate` empty as well) when the prior diff created nothing
and every updated resource's desired tag list already contained the
management marker — otherwise the injected marker makes the written tag
list differ from the desired one and the resource is flagged again. -/
theorem c4_idempotence_amended (ys : List YamlLink) (es : List ShortioLink) :
    ((computeDiffPure ys (applyDiff ys es)).toCreate = []
      ∧ (computeDiffPure ys (applyDiff ys es)).toDelete = [])
    ∧ ((computeDiffPure ys es).toCreate = [] →
        (∀ p ∈ (computeDiffPure ys es).toUpdate,
            MANAGED_TAG ∈ p.1.params.tags.getD []) →
        computeDiffPure ys (applyDiff ys es)
          = { toCreate := [], toUpdate := [], toDelete := [] }) := by
  refine ⟨⟨applyDiff_toCreate_nil ys es, applyDiff_toDelete_nil ys es⟩, ?_⟩
  intro hc hm
  have h1 := applyDiff_toCreate_nil ys es
  have h2 := applyDiff_toUpdate_nil ys es hc hm
  have h3 := applyDiff_toDelete_nil ys es
  have heta : computeDiffPure ys (applyDiff ys es)
      = { toCreate := (computeDiffPure ys (applyDiff ys es)).toCreate,
          toUpdate := (computeDiffPure ys (applyDiff ys es)).toUpdate,
          toDelete := (computeDiffPure ys (applyDiff ys es)).toDelete } := rfl
  rw [heta, h1, h2, h3]

-- ### Witnesses

/-- Witness for C1 at a managed observed link absent from an empty desired
collection. -/
theorem c1_witness :
    (sampleOld ∈ (computeDiffPure [] [sampleOld]).toDelete
      ↔ includesManagedTag sampleOld.params.tags = true)
    ∧ ∀ e', e' ∈ (computeDiffPure [] [sampleOld]).toDelete →
        includesManagedTag e'.params.tags = true :=
  c1_delete_requires_marker [] [sampleOld] "short.io/old" sampleOld
    (by decide) (by decide)

/-- Witness for C3 at a desired link whose tag set already holds the
marker. -/
theorem c3_witness :
    (buildCreateBody sampleTagged).params.tags
        = some (sampleTagged.params.tags.getD [] ++ [MANAGED_TAG])
    ∧ (updateRequestTags sampleTagged.params.tags).count MANAGED_TAG = 1 :=
  ⟨(c3_request_tags sampleTagged).1,
   (c3_request_tags sampleTagged).2.2.2 (by decide)⟩

/-- Witness for C4: one marker-tagged updated link, no creations — the
second diff is empty. -/
theorem c4_witness :
    computeDiffPure [sampleTagged] (applyDiff [sampleTagged] [sampleExisting])
      = { toCreate := [], toUpdate := [], toDelete := [] } :=
  (c4_idempotence_amended [sampleTagged] [sampleExisting]).2 (by decide) (by decide)

/-- Witness for C5 at a one-creation diff. -/
theorem c5_witness :
    executeSync { toCreate := [sampleLink], toUpdate := [], toDelete := [] } true
        (fun _ => Except.ok ()) (fun _ _ => Except.ok ()) (fun _ => Except.ok ())
      = ({ created := 1, updated := 0, deleted := 0, errors := [] }, 0) := by
  have h := c5_dry_run { toCreate := [sampleLink], toUpdate := [], toDelete := [] }
    (fun _ => Except.ok ()) (fun _ _ => Except.ok ()) (fun _ => Except.ok ())
    (by simp)
  simpa using h

/-- Witness for C6: title `undefined` vs `""` is unchanged while
`utmSource` `undefined` vs `""` is an update. -/
theorem c6_witness :
    needsUpdate plainLink titleEmpty = false
      ∧ needsUpdate plainLink utmEmpty = true :=
  ⟨(c6_title_only_equivalence plainLink titleEmpty).1 rfl rfl (by decide) (by decide),
   (c6_title_only_equivalence plainLink utmEmpty).2 rfl rfl⟩

/-- Witness for C7 at the permuted pair `["a","b"]` / `["b","a"]`. -/
theorem c7_witness :
    arraysEqual (some ["a", "b"]) (some ["b", "a"]) = true
      ∧ needsUpdate permDesired permObserved = false :=
  ⟨(c7_tag_order ["a", "b"] ["b", "a"] permDesired permObserved).1 (by decide),
   (c7_tag_order ["a", "b"] ["b", "a"] permDesired permObserved).2 rfl rfl
     (by decide) (by decide)⟩

/-- Witness for C8 at slash-free slugs. -/
theorem c8_witness : ("a" : String) = "a" ∧ ("b" : String) = "b" :=
  c8_amended "a" "b" "a" "b" (by decide) (by decide) rfl

/-- Witness for C9: a cached hostname is answered from the cache; an
uncached one resolves through one listing call. -/
theorem c9_witness :
    resolveDomainId [("cached.io", 7)] (Except.error ()) "cached.io"
        = (Except.ok 7, [("cached.io", 7)], 0)
    ∧ ((resolveDomainId [] (Except.ok [("x", 5)]) "x").2.1
          = populateCache [] [("x", 5)]
        ∧ (resolveDomainId [] (Except.ok [("x", 5)]) "x").2.2 = 1
        ∧ (∀ n i, (n, i) ∈ [("x", 5)] →
            (mapGet (populateCache [] [("x", 5)]) n).isSome = true)
        ∧ ((resolveDomainId [] (Except.ok [("x", 5)]) "x").1
              = Except.error DomainError.notFound
            ↔ (mapGet (populateCache [] [("x", 5)]) "x" = none
                ∨ mapGet (populateCache [] [("x", 5)]) "x" = some 0))
        ∧ (∀ i, mapGet (populateCache [] [("x", 5)]) "x" = some i → i ≠ 0 →
            (resolveDomainId [] (Except.ok [("x", 5)]) "x").1 = Except.ok i)) :=
  ⟨(c9_amended [("cached.io", 7)] (Except.error ()) "cached.io").1 7 rfl,
   (c9_amended [] (Except.ok [("x", 5)]) "x").2 [("x", 5)] rfl rfl⟩

/-- Witness for C10 at a missing-vs-empty tag pair sharing the key "d/s". -/
theorem c10_witness :
    (plainLink, tagsEmpty) ∈ (computeDiffPure [plainLink] [tagsEmpty]).toUpdate :=
  c10_missing_vs_empty_tags [plainLink] [tagsEmpty] "d/s" plainLink tagsEmpty
    (by decide) (by decide) rfl rfl

end LinkSync
